import Mathlib

/-!
Shallow embedding of the Drifting Minds results-visualization program
(DM_results_viz.py and DM_results_viz_demo.py).

Python floats are modelled as exact rationals (with `Option ℚ` where the
code can produce the NaN sentinel: `none` = NaN), except for the two
places the code takes a square root or a fractional power, which are
modelled in ℝ.  Python values stored in a participant record are modelled
by the inductive `PyVal`; a record is an association list.  Infinities of
Python floats are not modelled (no code path relevant here produces one,
except the `np.inf` distance of an all-missing profile, which is modelled
as `none` in `Option ℝ`).
-/

/-- A Python value as it can occur in a participant record or be passed to
one of the normalizers: a finite float/int, the float NaN, `None`, or a
string. -/
inductive PyVal where
  | num (q : ℚ)
  | nanV
  | noneV
  | str (s : String)
deriving DecidableEq

/-- A participant record: an association list from field names to values,
modelling the Python dict. -/
def Record := List (String × PyVal)

/-- Dictionary lookup, `record[k]` / `record.get(k)`. -/
def lookupRec (r : Record) (k : String) : Option PyVal :=
  (List.find? (fun p => p.1 == k) r).map (fun p => p.2)

/-- Model of `_get_first(record, keys)`: first present value that is not
`None`, `""` or `"NA"`; NaN when no candidate key qualifies. -/
def getFirst (r : Record) (keys : List String) : PyVal :=
  match keys with
  | [] => PyVal.nanV
  | k :: ks =>
    match lookupRec r k with
    | some v =>
      if v = PyVal.noneV ∨ v = PyVal.str "" ∨ v = PyVal.str "NA" then getFirst r ks else v
    | none => getFirst r ks

/-- Model of `_get(record, key, default=np.nan)`: `record.get(key, np.nan)`. -/
def recGet (r : Record) (k : String) : PyVal :=
  (lookupRec r k).getD PyVal.nanV

/-- Lower-case an ASCII letter, `str.lower` on one character. -/
def lowerChar (c : Char) : Char :=
  if 'A' ≤ c ∧ c ≤ 'Z' then Char.ofNat (c.toNat + 32) else c

/-- Model of `str.lower()` over the character list of a string. -/
def pyLower (l : List Char) : List Char := l.map lowerChar

/-- Model of `str.strip()`: drop whitespace on both ends. -/
def pyStrip (l : List Char) : List Char :=
  ((l.dropWhile Char.isWhitespace).reverse.dropWhile Char.isWhitespace).reverse

/-- Numeric value of a digit string (most significant first). -/
def digitsToNat (l : List Char) : ℕ :=
  l.foldl (fun acc c => 10 * acc + (c.toNat - 48)) 0

/-- Rational value of `ip.fp`, an integer part and a fractional part given
as digit strings. -/
def decVal (ip fp : List Char) : ℚ :=
  (digitsToNat ip : ℚ) + (digitsToNat fp : ℚ) / (10 ^ fp.length)

/-- Result of Python `float(str)`: a finite value, the float NaN (from the
literal string form nan), or a raised `ValueError`.  Infinite literals are
not modelled. -/
inductive FloatRes where
  | val (q : ℚ)
  | nanRes
  | err
deriving DecidableEq

/-- Parse an unsigned decimal literal (`digits`, `digits.digits`,
`.digits`, `digits.`), returning its value and the rest of the input. -/
def parseUnsignedDec (l : List Char) : Option (ℚ × List Char) :=
  let ip := l.takeWhile Char.isDigit
  let r1 := l.dropWhile Char.isDigit
  match r1 with
  | '.' :: r2 =>
    let fp := r2.takeWhile Char.isDigit
    let r3 := r2.dropWhile Char.isDigit
    if ip.isEmpty ∧ fp.isEmpty then none else some (decVal ip fp, r3)
  | _ => if ip.isEmpty then none else some ((digitsToNat ip : ℚ), r1)

/-- Parse an optional exponent suffix (`e±digits`); returns the scaled
value, or `none` when a malformed exponent (or trailing garbage) remains. -/
def applyExpSuffix (q : ℚ) (l : List Char) : Option ℚ :=
  match l with
  | [] => some q
  | 'e' :: r1 =>
    let (sgn, r2) : ℚ × List Char :=
      match r1 with
      | '+' :: r => (1, r)
      | '-' :: r => (-1, r)
      | r => (1, r)
    let ds := r2.takeWhile Char.isDigit
    let r3 := r2.dropWhile Char.isDigit
    if ds.isEmpty ∨ ¬ r3.isEmpty then none
    else some (if sgn = 1 then q * 10 ^ digitsToNat ds else q / 10 ^ digitsToNat ds)
  | _ => none

/-- Model of Python `float(s)` on a string: strip, case-fold, optional
sign, decimal literal with optional exponent; `"nan"` gives the NaN float,
anything else unparsable raises. -/
def pyFloat (s : String) : FloatRes :=
  let l0 := pyLower (pyStrip s.data)
  let (sgn, l1) : ℚ × List Char :=
    match l0 with
    | '+' :: r => (1, r)
    | '-' :: r => (-1, r)
    | r => (1, r)
  if l1 = "nan".data then FloatRes.nanRes
  else
    match parseUnsignedDec l1 with
    | none => FloatRes.err
    | some (q, rest) =>
      match applyExpSuffix q rest with
      | none => FloatRes.err
      | some v => FloatRes.val (sgn * v)

/-- Model of `_to_float(x)`: `float(x)` with every failure (and NaN input
or NaN literal) collapsing to the NaN sentinel `none`. -/
def pyToFloat (x : PyVal) : Option ℚ :=
  match x with
  | PyVal.num q => some q
  | PyVal.nanV => none
  | PyVal.noneV => none
  | PyVal.str s =>
    match pyFloat s with
    | FloatRes.val q => some q
    | _ => none

/-- Model of `np.clip(x, 0.0, 1.0)`. -/
def clip01 (q : ℚ) : ℚ := max 0 (min 1 q)

/-- Model of `np.clip(x, lo, hi)`. -/
def clipQ (q lo hi : ℚ) : ℚ := min hi (max lo q)

/-- Model of `norm_bool(x)`: `1.0 if float(x) >= 0.5 else 0.0`, with the
`except` branch returning NaN.  Note that a NaN float input does NOT raise:
the comparison `nan >= 0.5` is False, so the function returns `0.0`. -/
def norm_bool (x : PyVal) : Option ℚ :=
  match x with
  | PyVal.num q => some (if (1 : ℚ)/2 ≤ q then 1 else 0)
  | PyVal.nanV => some 0
  | PyVal.noneV => none
  | PyVal.str s =>
    match pyFloat s with
    | FloatRes.val q => some (if (1 : ℚ)/2 ≤ q then 1 else 0)
    | FloatRes.nanRes => some 0
    | FloatRes.err => none

/-- First match of the pattern sign-digits-optional-fraction anywhere in
the string, as used by `re.search` inside `norm_eq`: at the current
position, an optional sign followed by at least one digit, then an
optional fractional part. -/
def tryNumberAt (l : List Char) : Option ℚ :=
  let (sgn, l1) : ℚ × List Char :=
    match l with
    | '+' :: r => (1, r)
    | '-' :: r => (-1, r)
    | r => (1, r)
  let ds := l1.takeWhile Char.isDigit
  let r1 := l1.dropWhile Char.isDigit
  if ds.isEmpty then none
  else
    match r1 with
    | '.' :: r2 =>
      let fs := r2.takeWhile Char.isDigit
      if fs.isEmpty then some (sgn * (digitsToNat ds : ℚ))
      else some (sgn * decVal ds fs)
    | _ => some (sgn * (digitsToNat ds : ℚ))

/-- Leftmost numeric token of a string (`re.search` of the number pattern). -/
def scanNumber (l : List Char) : Option ℚ :=
  match l with
  | [] => none
  | c :: rest =>
    match tryNumberAt (c :: rest) with
    | some q => some q
    | none => scanNumber rest

/-- Display form of the target used by the fall-back exact string compare
in `norm_eq` (only reached when the string holds no digit at all);
Python's numeric formatting is approximated by integer / fraction form. -/
def pyRepr (q : ℚ) : String :=
  if q.den = 1 then toString q.num else toString q.num ++ "/" ++ toString q.den

/-- Model of `norm_eq(x, value)`: tolerant equality against a target.
On a string, the first numeric token is compared; with no token, an exact
string compare is used.  `None` gives NaN; a NaN float input does NOT give
NaN (despite the docstring): the numeric comparison is False, giving `0.0`. -/
def norm_eq (x : PyVal) (value : ℚ) : Option ℚ :=
  match x with
  | PyVal.noneV => none
  | PyVal.str s =>
    let t := pyStrip s.data
    if t.isEmpty ∨ pyLower t = "nan".data then none
    else
      match scanNumber t with
      | some q => some (if q = value then 1 else 0)
      | none => some (if String.mk t = pyRepr value then 1 else 0)
  | PyVal.num q => some (if q = value then 1 else 0)
  | PyVal.nanV => some 0

/-- Model of `norm_1_4(x)`. -/
def norm_1_4 (x : PyVal) : Option ℚ :=
  (pyToFloat x).map (fun v => clip01 ((v - 1) / 3))

/-- Model of `norm_1_6(x)`. -/
def norm_1_6 (x : PyVal) : Option ℚ :=
  (pyToFloat x).map (fun v => clip01 ((v - 1) / 5))

/-- Model of `norm_0_100(x)`. -/
def norm_0_100 (x : PyVal) : Option ℚ :=
  (pyToFloat x).map (fun v => clip01 (v / 100))

/-- Model of `norm_1_100(x)`. -/
def norm_1_100 (x : PyVal) : Option ℚ :=
  (pyToFloat x).map (fun v => clip01 ((v - 1) / 99))

/-- Result of `_to_minutes_relaxed`: a minute count, the marker for an
already-normalized value in `[0,1]` (Python `None`), or NaN. -/
inductive MinRes where
  | minutes (m : ℚ)
  | alreadyNorm
  | nanM
deriving DecidableEq

/-- Anchored match of the pattern spaces digits(1-2) spaces colon spaces
digits(1-2) spaces end-of-string, the HH:MM form accepted by
`_to_minutes_relaxed`. -/
def matchHHMM (l : List Char) : Option (ℕ × ℕ) :=
  let r0 := l.dropWhile Char.isWhitespace
  let d1 := r0.takeWhile Char.isDigit
  let r1 := r0.dropWhile Char.isDigit
  if d1.length < 1 ∨ 2 < d1.length then none
  else
    match r1.dropWhile Char.isWhitespace with
    | ':' :: r3 =>
      let r4 := r3.dropWhile Char.isWhitespace
      let d2 := r4.takeWhile Char.isDigit
      let r5 := r4.dropWhile Char.isDigit
      if d2.length < 1 ∨ 2 < d2.length then none
      else if (r5.dropWhile Char.isWhitespace).isEmpty then
        some (digitsToNat d1, digitsToNat d2)
      else none
    | _ => none

/-- Parse the decimal number starting at the head of the input (pattern
digits with optional dot-digits fraction); rest of input returned. -/
def parseNumAt (l : List Char) : Option (ℚ × List Char) :=
  let ds := l.takeWhile Char.isDigit
  let r1 := l.dropWhile Char.isDigit
  if ds.isEmpty then none
  else
    match r1 with
    | '.' :: r2 =>
      let fs := r2.takeWhile Char.isDigit
      let r3 := r2.dropWhile Char.isDigit
      if fs.isEmpty then some ((digitsToNat ds : ℚ), r1)
      else some (decVal ds fs, r3)
    | _ => some ((digitsToNat ds : ℚ), r1)

/-- Scan for number-unit pairs, the `re.findall` loop of
`_to_minutes_relaxed`: every number followed (after spaces) by an
hour-unit word adds sixty times its value, by a minute-unit word its
value; the `h`/`m` head character decides the unit, exactly as the
leftmost-first regex alternation does.  The flag records whether any unit
was seen.  Fuel bounds the recursion; one character is consumed per step,
so the input length suffices. -/
def unitScan (fuel : ℕ) (l : List Char) (tot : ℚ) (anyU : Bool) : ℚ × Bool :=
  match fuel, l with
  | 0, _ => (tot, anyU)
  | _ + 1, [] => (tot, anyU)
  | fuel + 1, c :: rest =>
    if c.isDigit then
      match parseNumAt (c :: rest) with
      | some (v, r1) =>
        match r1.dropWhile Char.isWhitespace with
        | 'h' :: r3 => unitScan fuel r3 (tot + v * 60) true
        | 'm' :: r3 => unitScan fuel r3 (tot + v) true
        | r2 => unitScan fuel r2 tot anyU
      | none => unitScan fuel rest tot anyU
    else unitScan fuel rest tot anyU

/-- Model of `_to_minutes_relaxed(x)`: accepts minutes, HH:MM, hour/minute
words, or an already-normalized value in `[0,1]`.  A float NaN input flows
through the numeric branch and comes out NaN either way. -/
def toMinutesRelaxed (x : PyVal) : MinRes :=
  match x with
  | PyVal.num q => if 0 ≤ q ∧ q ≤ 1 then MinRes.alreadyNorm else MinRes.minutes q
  | PyVal.nanV => MinRes.nanM
  | PyVal.noneV => MinRes.nanM
  | PyVal.str s =>
    let t := pyLower (pyStrip s.data)
    if t.isEmpty ∨ t = "na".data ∨ t = "n/a".data ∨ t = "none".data then MinRes.nanM
    else
      match matchHHMM t with
      | some (hh, mm) => MinRes.minutes ((hh : ℚ) * 60 + (mm : ℚ))
      | none =>
        let (tot, anyU) := unitScan t.length t 0 false
        if anyU then MinRes.minutes tot
        else
          match pyFloat (String.mk t) with
          | FloatRes.val v => if 0 ≤ v ∧ v ≤ 1 then MinRes.alreadyNorm else MinRes.minutes v
          | _ => MinRes.nanM

/-- The sleep-latency cap in minutes, `CAP_MIN = 60.0`. -/
def CAP_MIN : ℚ := 60

/-- Model of `norm_latency_auto(x, cap_minutes)`: minutes divided by the
cap and clipped to `[0,1]`; an already-normalized input is only clipped;
NaN propagates. -/
def norm_latency_auto (x : PyVal) (cap : ℚ) : Option ℚ :=
  match toMinutesRelaxed x with
  | MinRes.alreadyNorm => (pyToFloat x).map clip01
  | MinRes.nanM => none
  | MinRes.minutes m => some (clip01 (m / cap))

/-- Model of the local `_norm16(x)` used by the dimension scores:
`clip((v - 1)/5, 0, 1)`, NaN-propagating. -/
def norm16 (x : PyVal) : Option ℚ :=
  (pyToFloat x).map (fun v => clip01 ((v - 1) / 5))

/-- Model of `_mean_ignore_nan(arr)`: mean of the non-NaN entries, NaN when
none remains. -/
def meanIgnoreNan (l : List (Option ℚ)) : Option ℚ :=
  let xs := l.filterMap id
  if xs.isEmpty then none else some (xs.sum / xs.length)

/-- Weight-averaging mode of a dimension, the `weight_mode` field. -/
inductive WMode where
  | standard
  | emotionBipolar
deriving DecidableEq

/-- Model of `_weight_boost(wvals, mode)`: average the 1-6-normalized
weight fields, ignoring NaN and defaulting to the neutral `0.5` when all
are missing; fold to a boost in `[0, 0.5]`. -/
def weightBoost (wvals : List PyVal) (mode : WMode) : ℚ :=
  let w := (meanIgnoreNan (wvals.map norm16)).getD (1/2)
  let boost : ℚ :=
    match mode with
    | WMode.emotionBipolar => max 0 (2 * |w - 1/2| - 1/2)
    | WMode.standard => max 0 (w - 1/2)
  clipQ boost 0 (1/2)

/-- Configuration of one composite dimension (an entry of
`DIM_BAR_CONFIG`): frequency fields, the subset to invert, weight fields
and the weight mode. -/
structure DimCfg where
  freqKeys : List String
  invertKeys : List String
  weightKeys : List String
  weightMode : WMode

/-- The normalized (and possibly inverted) frequency values of a dimension
for a record, the `vals` list of `compute_dimension_score`. -/
def dimVals (r : Record) (cfg : DimCfg) : List (Option ℚ) :=
  cfg.freqKeys.map (fun k =>
    let v := norm16 (recGet r k)
    if k ∈ cfg.invertKeys then v.map (fun q => 1 - q) else v)

/-- The base score of a dimension: NaN-ignoring mean of the frequency
values. -/
def dimBase (r : Record) (cfg : DimCfg) : Option ℚ :=
  meanIgnoreNan (dimVals r cfg)

/-- Model of `compute_dimension_score(record, cfg, k_bump)`: the base
score amplified by `k_bump * boost * base * (1 - base)` and clipped to
`[0,1]`; NaN when every frequency field is missing. -/
def compute_dimension_score (r : Record) (cfg : DimCfg) (kBump : ℚ) : Option ℚ :=
  match dimBase r cfg with
  | none => none
  | some base =>
    let boost := weightBoost (cfg.weightKeys.map (recGet r)) cfg.weightMode
    some (clip01 (base + kBump * boost * base * (1 - base)))

/-- Model of `_clamp_pct(p)` (page bar loop) and of the inline
`max(2.0, min(98.0, p))` (export bar loop). -/
def clampPct (p : ℚ) : ℚ := max 2 (min 98 p)

/-- Python's `round` on a rational: round-half-to-even (banker's
rounding), as applied to the bar width. -/
def pyRound (q : ℚ) : ℤ :=
  let f := Int.floor q
  let r := q - f
  if r < 1/2 then f
  else if 1/2 < r then f + 1
  else if 2 ∣ f then f else f + 1

/-- Bar fill width of one dimension, `max(int(round(np.clip(score, 0,
100))), min_fill)` with `min_fill = 2`; the NaN branch uses the bare
minimal fill. -/
def barWidth (score : Option ℚ) : ℤ :=
  match score with
  | none => 2
  | some s => max (pyRound (clipQ s 0 100)) 2

/-- Position of the participant score tag in the page loop (and,
identically computed, in the export loop): the clamped bar width. -/
def scoreTagPos (score : Option ℚ) : ℚ := clampPct (barWidth score : ℚ)

/-- Position of the population-median marker dot in the PAGE bar loop:
`med_left = float(np.clip(median, 0, 100))`, used UNCLAMPED in the
marker's style (`left:{med_left}%`). -/
def pageMedianPos (median : ℚ) : ℚ := clipQ median 0 100

/-- Position of the population-median marker dot in the EXPORT bar loop:
the `[2, 98]`-clamped `med_left_clamped`. -/
def exportMedianPos (median : ℚ) : ℚ := clampPct (pageMedianPos median)

/-- The seven record fields of the intensity radar, in order. -/
def radarFields : List String :=
  ["degreequest_vividness", "degreequest_immersiveness", "degreequest_bizarreness",
   "degreequest_spontaneity", "degreequest_fleetingness", "degreequest_emotionality",
   "degreequest_sleepiness"]

/-- Model of `_as_float_or_nan` applied to `record.get(k)`: the raw axis
values pulled from the participant record (1..6 scale expected). -/
def radarVals (r : Record) : List (Option ℚ) :=
  radarFields.map (fun k => pyToFloat ((lookupRec r k).getD PyVal.noneV))

/-- Model of the radar missing-axis fill: all axes missing gives a list of
zeros (`[0.0] * len(vals)`), otherwise each missing axis is replaced by
`np.nanmean(vals)`, the mean of the present axes. -/
def radarValsFilled (r : Record) : List (Option ℚ) :=
  let vals := radarVals r
  if vals.all Option.isNone then vals.map (fun _ => some 0)
  else
    match meanIgnoreNan vals with
    | none => vals
    | some m => vals.map (fun v => some (v.getD m))

/-- Model of `values = vals_filled + [vals_filled[0]]`, the closed polygon
handed to the polar plot. -/
def radarValues (r : Record) : List (Option ℚ) :=
  radarValsFilled r ++ (radarValsFilled r).take 1

/-- Deep embedding of the normalizer functions referenced by `PROFILES`
features and guard conditions (`norm` plus `norm_kwargs`). -/
inductive NormFn where
  | n14
  | n16
  | n0100
  | n1100
  | nBool
  | nEq (value : ℚ)
  | nLatency (cap : ℚ)
deriving DecidableEq

/-- Interpretation of a deep-embedded normalizer. -/
def applyNorm (nf : NormFn) (x : PyVal) : Option ℚ :=
  match nf with
  | NormFn.n14 => norm_1_4 x
  | NormFn.n16 => norm_1_6 x
  | NormFn.n0100 => norm_0_100 x
  | NormFn.n1100 => norm_1_100 x
  | NormFn.nBool => norm_bool x
  | NormFn.nEq v => norm_eq x v
  | NormFn.nLatency cap => norm_latency_auto x cap

/-- The comparison operator of a guard condition. -/
inductive CondOp where
  | between
  | condGte
  | condLte
  | condGt
  | condLt
  | condEq
  | inSet
deriving DecidableEq

/-- A single guard condition, the dict consumed by `_eval_condition`. -/
structure Cond where
  key : List String
  norm : Option NormFn := none
  op : CondOp := CondOp.between
  bounds : ℚ × ℚ := (0, 1)
  value : ℚ := 0
  values : List ℚ := []

/-- Model of `_eval_condition(record, cond)`: pull the field, normalize it
if a normalizer is given (else raw float), then compare; a missing or NaN
value fails the condition. -/
def evalCondition (r : Record) (c : Cond) : Bool :=
  let raw := getFirst r c.key
  let v : Option ℚ :=
    match c.norm with
    | none => pyToFloat raw
    | some nf => applyNorm nf raw
  match v with
  | none => false
  | some q =>
    match c.op with
    | CondOp.between => decide (c.bounds.1 ≤ q ∧ q ≤ c.bounds.2)
    | CondOp.condGte => decide (c.value ≤ q)
    | CondOp.condLte => decide (q ≤ c.value)
    | CondOp.condGt => decide (c.value < q)
    | CondOp.condLt => decide (q < c.value)
    | CondOp.condEq => decide (|q - c.value| < 1 / 1000000000)
    | CondOp.inSet => c.values.contains q

/-- A must/veto guard rule: a single condition, an AND of conditions, or
an OR of conditions (`_eval_guard`). -/
inductive Guard where
  | single (c : Cond)
  | allOf (cs : List Cond)
  | anyOf (cs : List Cond)

/-- Model of `_eval_guard(record, rule)`. -/
def evalGuard (r : Record) (g : Guard) : Bool :=
  match g with
  | Guard.single c => evalCondition r c
  | Guard.allOf cs => cs.all (evalCondition r)
  | Guard.anyOf cs => cs.any (evalCondition r)

/-- Hit operator of a feature, the `hit_op` field (`gte` default). -/
inductive HitOp where
  | opGte
  | opLte
deriving DecidableEq

/-- One `PROFILES` feature: candidate keys, normalizer, target, weight,
hit operator, and the gating / short-circuit condition lists.  `isVar`
models the `"type": "var"` tag (every feature in the registry is a var
feature). -/
structure FeatCfg where
  isVar : Bool := true
  key : List String
  norm : Option NormFn := none
  target : ℚ
  weight : ℚ := 1
  hitOp : HitOp := HitOp.opGte
  onlyIf : Option Cond := none
  onlyIfAll : List Cond := []
  onlyIfAny : List Cond := []
  orIfAny : List Cond := []
  orIfAll : List Cond := []
  orValue : Option ℚ := none

/-- Model of `_conditions_met(record, feat)`: `only_if`, `only_if_all` and
`only_if_any` gating. -/
def conditionsMet (r : Record) (f : FeatCfg) : Bool :=
  (match f.onlyIf with
   | some c => evalCondition r c
   | none => true)
  && f.onlyIfAll.all (evalCondition r)
  && (f.onlyIfAny.isEmpty || f.onlyIfAny.any (evalCondition r))

/-- Model of `_eligible_for_hit(record, feat)`: in the source this
duplicates the gating of `_conditions_met` verbatim. -/
def eligibleForHit (r : Record) (f : FeatCfg) : Bool :=
  (match f.onlyIf with
   | some c => evalCondition r c
   | none => true)
  && f.onlyIfAll.all (evalCondition r)
  && (f.onlyIfAny.isEmpty || f.onlyIfAny.any (evalCondition r))

/-- Model of `_shortcircuit_or_value(record, feat)`: an OR condition that
fires provides an override value (default: the target). -/
def shortcircuitOrValue (r : Record) (f : FeatCfg) : Option ℚ :=
  if ¬ f.orIfAny.isEmpty ∧ f.orIfAny.any (evalCondition r) then
    some (f.orValue.getD f.target)
  else if ¬ f.orIfAll.isEmpty ∧ f.orIfAll.all (evalCondition r) then
    some (f.orValue.getD f.target)
  else none

/-- Model of `_feature_value_from_record(record, scores, feat)`: NaN for a
non-var feature or failed gating; a fired OR short-circuit value is
clipped to `[0,1]`; otherwise the declared variable is normalized (raw
float clipped to `[0,1]` when no normalizer is given). -/
def featureValue (r : Record) (f : FeatCfg) : Option ℚ :=
  if ¬ f.isVar then none
  else if ¬ conditionsMet r f then none
  else
    match shortcircuitOrValue r f with
    | some sc => some (clip01 sc)
    | none =>
      match f.norm with
      | none => (pyToFloat (getFirst r f.key)).map clip01
      | some nf => applyNorm nf (getFirst r f.key)

/-- Model of `_feature_hit(record, feat, value, tol=0.95)`: `none` when the
feature is ineligible or its value missing, otherwise whether the value
clears the tolerance-scaled target (`v >= tgt * 0.95` for gte,
`v <= tgt / 0.95` for lte). -/
def featureHit (r : Record) (f : FeatCfg) (value : Option ℚ) : Option Bool :=
  if ¬ eligibleForHit r f then none
  else
    match value with
    | none => none
    | some v =>
      match f.hitOp with
      | HitOp.opLte => some (decide (v ≤ f.target / (19/20)))
      | HitOp.opGte => some (decide (v ≥ f.target * (19/20)))

/-- Hits and eligible counts accumulated over a profile's features, the
`hits, eligible` loop shared by `assign_profile_from_record` and
`compute_profile_distances`. -/
def hitsEligible (r : Record) (feats : List FeatCfg) : ℕ × ℕ :=
  feats.foldl
    (fun acc f =>
      match featureHit r f (featureValue r f) with
      | none => acc
      | some b => (acc.1 + (if b then 1 else 0), acc.2 + 1))
    (0, 0)

/-- Model of `_weighted_nanaware_distance(values, targets, weights)`: the
root of the weight-normalized sum of squared errors over the non-NaN
pairs; `none` models the `np.inf` returned when every pair is masked. -/
noncomputable def weightedNanawareDistance
    (values : List (Option ℚ)) (targets weights : List ℚ) : Option ℝ :=
  let triples := (values.zip (targets.zip weights)).filterMap
    (fun p => match p.1 with
      | none => none
      | some a => some ((a : ℝ), ((p.2.1 : ℝ), (p.2.2 : ℝ))))
  if triples.isEmpty then none
  else
    let d2 := (triples.map (fun t => t.2.2 * (t.1 - t.2.1) ^ 2)).sum
    let W := (triples.map (fun t => t.2.2)).sum
    some (Real.sqrt (d2 / max W (1 / 1000000000)))

/-- The AND-ish penalty knobs of the matching engine. -/
def kRatio : ℚ := 1/5

/-- Penalty steepness exponent, `GAMMA = 0.8`. -/
noncomputable def GAMMA : ℝ := 4/5

/-- Maximal multiplicative penalty, `CAP = 3.0`. -/
def CAP : ℝ := 3

/-- Model of the AND-ish penalty step shared verbatim by
`assign_profile_from_record` and `compute_profile_distances`: with
`eligible > 0` and hit ratio `r = hits/eligible` below `kRatio`, the
distance is multiplied by `min((kRatio / max(r, 1e-6)) ** GAMMA, CAP)`;
otherwise it is returned unchanged. -/
noncomputable def andPenalty (d : Option ℝ) (hits eligible : ℕ) : Option ℝ :=
  if 0 < eligible then
    let r : ℚ := (hits : ℚ) / (eligible : ℚ)
    if r < kRatio then
      d.map (fun x => x * min (((kRatio : ℝ) / max (r : ℝ) (1 / 1000000)) ^ GAMMA) CAP)
    else d
  else d

/-- The penalized weighted distance of one profile's feature list for a
record: feature values against targets and weights, then the AND-ish
penalty. -/
noncomputable def profileDistance (r : Record) (feats : List FeatCfg) : Option ℝ :=
  let vals := feats.map (featureValue r)
  let d := weightedNanawareDistance vals (feats.map FeatCfg.target) (feats.map FeatCfg.weight)
  let he := hitsEligible r feats
  andPenalty d he.1 he.2

/-- The hit ratio `r = hits / eligible` of one profile for a record,
`0.0` when no feature is eligible (as in the tie-break line of
`assign_profile_from_record`). -/
def profileHitFraction (r : Record) (feats : List FeatCfg) : ℚ :=
  let he := hitsEligible r feats
  if 0 < he.2 then (he.1 : ℚ) / (he.2 : ℚ) else 0

/-- One entry of the `PROFILES` registry: its features and its must/veto
guard rules. -/
structure ProfileCfg where
  features : List FeatCfg
  must : List Guard := []
  veto : List Guard := []

/-- Whether a profile participates for a record: it has features, fails no
`must` rule and triggers no `veto` rule. -/
def profileAdmitted (r : Record) (cfg : ProfileCfg) : Bool :=
  ¬ cfg.features.isEmpty
  && cfg.must.all (evalGuard r)
  && ¬ cfg.veto.any (evalGuard r)

/-- Ordering used when keeping the best profile: strictly smaller by more
than `EPS = 1e-6`, or within `EPS` with a strictly larger hit ratio
(`none` is the `np.inf` starting distance; `NaN` comparisons with it are
False, so an infinite candidate never displaces anything and any finite
one displaces infinity). -/
noncomputable def betterCandidate
    (d : Option ℝ) (ratio : ℚ) (bestD : Option ℝ) (bestR : ℚ) : Prop :=
  match d, bestD with
  | none, _ => False
  | some _, none => True
  | some x, some b => x + 1/1000000 < b ∨ (|x - b| ≤ 1/1000000 ∧ bestR < ratio)

open Classical in
/-- Model of the `assign_profile_from_record` loop over the registry:
fold the admitted profiles, keeping the best (name, distance, ratio). -/
noncomputable def assignFold (r : Record) (registry : List (String × ProfileCfg)) :
    Option String × Option ℝ × ℚ :=
  registry.foldl
    (fun best entry =>
      if profileAdmitted r entry.2 then
        let d := profileDistance r entry.2.features
        let ratio := profileHitFraction r entry.2.features
        if betterCandidate d ratio best.2.1 best.2.2 then (some entry.1, d, ratio) else best
      else best)
    (none, none, -1)

/-- Model of `assign_profile_from_record(record)` over a registry: the
name of the best-scoring admitted profile. -/
noncomputable def assign_profile_from_record
    (registry : List (String × ProfileCfg)) (r : Record) : Option String :=
  (assignFold r registry).1

/-- Model of `compute_profile_distances(record)` over a registry: the
penalized distance of every admitted profile, in registry order. -/
noncomputable def compute_profile_distances
    (registry : List (String × ProfileCfg)) (r : Record) : List (String × Option ℝ) :=
  (registry.filter (fun e => profileAdmitted r e.2)).map
    (fun e => (e.1, profileDistance r e.2.features))

/-- The similarity list of the profile-likelihoods panel: distances (with
`none` = `np.inf` for a profile missing from the returned dict) are mapped
through `1/(1+d)` on the finite entries and zero elsewhere, then
normalized; when no distance is finite, or the similarity total is not
positive, the uniform vector `1/len` is used instead. -/
noncomputable def simsOfDists (ds : List (Option ℝ)) : List ℝ :=
  if ds.all Option.isNone then ds.map (fun _ => 1 / (ds.length : ℝ))
  else
    let s := ds.map (fun d => match d with | some x => 1 / (1 + x) | none => 0)
    let total := s.sum
    if total ≤ 0 then ds.map (fun _ => 1 / (ds.length : ℝ))
    else s.map (fun x => x / total)

/-- The displayed match percentages, `lik_pct = sims * 100.0`. -/
noncomputable def likPct (ds : List (Option ℝ)) : List ℝ :=
  (simsOfDists ds).map (fun x => x * 100)

/-- The call record of a `truncnorm.rvs` draw: shape parameters, location,
scale, sample size, and the fixed `random_state` seed when one is passed. -/
structure TruncnormCall where
  a : ℚ
  b : ℚ
  loc : ℚ
  scale : ℚ
  size : ℕ
  randomState : Option ℕ
deriving DecidableEq

/-- Lower truncation bound of the synthetic VVIQ reference sample
(`low = 30` in the source). -/
def vviqLow : ℚ := 30

/-- Upper truncation bound of the synthetic VVIQ reference sample. -/
def vviqHigh : ℚ := 80

/-- Mean of the synthetic VVIQ reference sample, `mu = 61.0`. -/
def vviqMu : ℚ := 61

/-- Standard deviation of the synthetic VVIQ reference sample,
`sigma = 9.2`. -/
def vviqSigma : ℚ := 46/5

/-- Size of the synthetic VVIQ reference sample, `N = 8000`. -/
def vviqN : ℕ := 8000

/-- The exact `truncnorm.rvs` call building `vviq_samples`:
`truncnorm.rvs((low-mu)/sigma, (high-mu)/sigma, loc=mu, scale=sigma,
size=N, random_state=42)`, evaluated at module level with no participant
input. -/
def vviqCall : TruncnormCall :=
  { a := (vviqLow - vviqMu) / vviqSigma
    b := (vviqHigh - vviqMu) / vviqSigma
    loc := vviqMu
    scale := vviqSigma
    size := vviqN
    randomState := some 42 }

/-- The VVIQ reference sample as seen while rendering one participant's
page, for an arbitrary (deterministic, seed-respecting) model `rvs` of
scipy's sampler: the participant record plays no part in the call. -/
def vviqSamplesFor (rvs : TruncnormCall → List ℚ) (_participant : Record) : List ℚ :=
  rvs vviqCall

/-- The call record of a `np.random.default_rng` construction in the demo
page (`seed` is `none` when no seed argument is passed). -/
structure RngCall where
  seed : Option ℕ
deriving DecidableEq

/-- The demo fallback page's generator construction:
`rng = np.random.default_rng(42)` — a fixed seed of 42. -/
def demoRng : RngCall := { seed := some 42 }

/-- Parameters of one `rng.normal(loc, scale, size)` draw in the demo
crowd distribution. -/
structure NormalCall where
  loc : ℚ
  scale : ℚ
  size : ℕ
deriving DecidableEq

/-- The demo crowd draw for the Thoughts scale,
`rng.normal(loc=3.0, scale=0.8, size=300)`. -/
def demoThoughtsCall : NormalCall := { loc := 3, scale := 4/5, size := 300 }

/-- The demo crowd draw for the Perception scale,
`rng.normal(loc=3.2, scale=0.7, size=300)`. -/
def demoPerceptionCall : NormalCall := { loc := 16/5, scale := 7/10, size := 300 }

/-- The demo page's synthetic crowd sample for one render, for an
arbitrary (deterministic, seed-respecting) model `gen` of numpy's seeded
generator: the participant record plays no part in either call. -/
def demoCrowdFor (gen : RngCall → NormalCall → List ℚ) (_participant : Record) :
    List ℚ × List ℚ :=
  (gen demoRng demoThoughtsCall, gen demoRng demoPerceptionCall)

/-!  Theorems settling the specification claims.  -/

/-- C4: with the cap of 60 minutes, `norm_latency_auto` maps the string
1:05 to 1.0 (65 minutes, clipped), the string 45 to 0.75, and the bare
string 0.5 is recognized as already normalized and returned unchanged as
0.5 (not divided by the cap again). -/
theorem norm_latency_auto_examples :
    norm_latency_auto (PyVal.str "1:05") CAP_MIN = some 1 ∧
    norm_latency_auto (PyVal.str "45") CAP_MIN = some (3/4) ∧
    toMinutesRelaxed (PyVal.str "0.5") = MinRes.alreadyNorm ∧
    norm_latency_auto (PyVal.str "0.5") CAP_MIN = some (1/2) := by
  refine ⟨?_, ?_, ?_, ?_⟩ <;>
    simp +decide [norm_latency_auto, toMinutesRelaxed, CAP_MIN, pyStrip, pyLower, lowerChar,
      matchHHMM, digitsToNat, List.dropWhile, List.takeWhile, clip01, unitScan, parseNumAt,
      pyFloat, parseUnsignedDec, applyExpSuffix, decVal, pyToFloat] <;>
    norm_num

/-- C6 (code divergence): when the referenced field is absent, alias
resolution yields the float NaN sentinel, and on that input `norm_bool`
and `norm_eq` return `0.0`, not NaN — the NaN float flows into the
ordinary comparisons, which are simply False (`norm_eq`'s own docstring
promises NaN for NaN). -/
theorem norm_bool_norm_eq_nan_input_yield_zero :
    getFirst ([] : Record) ["some_field"] = PyVal.nanV ∧
    norm_bool PyVal.nanV = some 0 ∧
    norm_eq PyVal.nanV 1 = some 0 ∧
    norm_bool PyVal.nanV ≠ none ∧
    norm_eq PyVal.nanV 1 ≠ none := by
  refine ⟨rfl, rfl, rfl, ?_, ?_⟩ <;> simp [norm_bool, norm_eq]

/-- C7 (counterexample): in the on-page bar loop the population-median
marker dot is positioned with `med_left`, the value clipped only into
`[0, 100]`; at a raw median of 0 the marker sits at 0, outside `[2, 98]`,
so the claim that both displayed positions are clamped into `[2, 98]` is
false for the page median marker. -/
theorem page_median_marker_unclamped :
    pageMedianPos 0 = 0 ∧ ¬ (2 ≤ pageMedianPos 0) := by
  norm_num [pageMedianPos, clipQ]

/-- C7 (amended): in both loops the participant score-tag position is
clamped into `[2, 98]`, and the export loop also clamps the median marker
into `[2, 98]`; the on-page median marker is only clipped into `[0, 100]`. -/
theorem bar_positions_clamped (s m : ℚ) :
    2 ≤ scoreTagPos (some s) ∧ scoreTagPos (some s) ≤ 98 ∧
    scoreTagPos none = 2 ∧
    2 ≤ exportMedianPos m ∧ exportMedianPos m ≤ 98 ∧
    0 ≤ pageMedianPos m ∧ pageMedianPos m ≤ 100 := by
  refine ⟨le_max_left _ _, ?_, ?_, le_max_left _ _, ?_, ?_, ?_⟩
  · exact max_le (by norm_num) (min_le_left _ _)
  · simp [scoreTagPos, barWidth, clampPct]
  · exact max_le (by norm_num) (min_le_left _ _)
  · exact le_min (by norm_num) (le_max_left _ _)
  · exact min_le_left _ _

/-- C9 (counterexample): the synthetic VVIQ reference sample is truncated
to `[30, 80]`, not `[16, 80]`: the source sets `low, high = 30, 80` and
the lower shape parameter is `(30 - 61)/9.2`, not `(16 - 61)/9.2`. -/
theorem vviq_lower_bound_not_16 :
    vviqLow = 30 ∧ vviqLow ≠ 16 ∧
    vviqCall.a = (30 - 61) / (46/5) ∧ vviqCall.a ≠ (16 - 61) / (46/5) := by
  refine ⟨rfl, by norm_num [vviqLow], ?_, ?_⟩ <;>
    norm_num [vviqCall, vviqLow, vviqHigh, vviqMu, vviqSigma]

/-- C9 (amended): the synthetic VVIQ reference sample is drawn as a
truncated normal with mean 61.0, standard deviation 9.2, bounds
`[30, 80]`, size 8000 and the fixed seed 42; the call is a module-level
constant with no participant input, so under any deterministic
seed-respecting model of the sampler, any two participants (or two runs)
receive identical samples and hence an identical population histogram. -/
theorem vviq_sample_parameters_deterministic :
    vviqCall.loc = 61 ∧ vviqCall.scale = 46/5 ∧
    vviqCall.a = (vviqLow - vviqMu) / vviqSigma ∧
    vviqCall.b = (vviqHigh - vviqMu) / vviqSigma ∧
    vviqLow = 30 ∧ vviqHigh = 80 ∧
    vviqCall.size = 8000 ∧ vviqCall.randomState = some 42 ∧
    ∀ (rvs : TruncnormCall → List ℚ) (p1 p2 : Record),
      vviqSamplesFor rvs p1 = vviqSamplesFor rvs p2 := by
  exact ⟨rfl, rfl, rfl, rfl, rfl, rfl, rfl, rfl, fun rvs p1 p2 => rfl⟩

/-- C10 (counterexample): the demo fallback page's crowd generator is
constructed with the FIXED seed 42 (`np.random.default_rng(42)`), so the
claim that it uses no fixed seed is false. -/
theorem demo_rng_seed_is_fixed :
    demoRng.seed = some 42 ∧ demoRng.seed ≠ none := by
  exact ⟨rfl, by simp [demoRng]⟩

/-- C10 (amended): the demo fallback page's you-versus-crowd comparison
draws its synthetic crowd from a generator seeded with the fixed value
42 (normal draws with means 3.0 and 3.2, scales 0.8 and 0.7, size 300),
with no participant input, so under any deterministic seed-respecting
model of numpy's generator two renders of the page produce identical
sample values. -/
theorem demo_crowd_deterministic :
    demoRng.seed = some 42 ∧
    demoThoughtsCall = { loc := 3, scale := 4/5, size := 300 } ∧
    demoPerceptionCall = { loc := 16/5, scale := 7/10, size := 300 } ∧
    ∀ (gen : RngCall → NormalCall → List ℚ) (r1 r2 : Record),
      demoCrowdFor gen r1 = demoCrowdFor gen r2 := by
  exact ⟨rfl, rfl, rfl, fun gen r1 r2 => rfl⟩


/-- A list with at least one present entry has a present NaN-ignoring
mean. -/
lemma meanIgnoreNan_isSome {l : List (Option ℚ)} {x : ℚ} (hx : some x ∈ l) :
    (meanIgnoreNan l).isSome := by
  have hmem : x ∈ l.filterMap id := List.mem_filterMap.mpr ⟨some x, hx, rfl⟩
  have hne : l.filterMap id ≠ [] := List.ne_nil_of_mem hmem
  simp [meanIgnoreNan, List.isEmpty_iff, hne]

/-- A list of option values that are not all `none` holds some present
value. -/
lemma exists_some_of_not_all_none {α : Type} {l : List (Option α)}
    (h : ¬ l.all Option.isNone) : ∃ x : α, some x ∈ l := by
  rcases List.exists_mem_of_ne_nil l (by rintro rfl; simp at h) with ⟨w, hw⟩
  by_contra hno
  push_neg at hno
  apply h
  rw [List.all_eq_true]
  intro u hu
  rcases u with _ | y
  · rfl
  · exact absurd hu (hno y)

/-- C8 (counterexample): when all seven radar axes are missing, the source
fills the axes with zeros (`[0.0] * len(vals)`), not with a neutral
midpoint of the 1-6 answer scale (3.5) nor of the normalized scale (0.5). -/
theorem radar_all_missing_fill_is_zero :
    radarValsFilled ([] : Record) = List.replicate 7 (some 0) ∧
    (0 : ℚ) ≠ 7/2 ∧ (0 : ℚ) ≠ 1/2 := by
  refine ⟨?_, by norm_num, by norm_num⟩
  simp +decide [radarValsFilled, radarVals, radarFields, lookupRec, pyToFloat, List.replicate]

/-- C8 (amended): each missing radar axis is replaced by the participant's
mean over the non-missing axes, and when all seven axes are missing every
axis is filled with 0.0 (not a neutral midpoint); in both cases every
plotted entry is present and the polygon is closed: the plotted list has
eight points and its last point equals its first. -/
theorem radar_polygon_closed (rec : Record) :
    ((radarVals rec).all Option.isNone →
      radarValsFilled rec = List.replicate 7 (some 0)) ∧
    (∀ m, meanIgnoreNan (radarVals rec) = some m →
      ¬ (radarVals rec).all Option.isNone →
      radarValsFilled rec = (radarVals rec).map (fun v => some (v.getD m))) ∧
    (∀ v ∈ radarValsFilled rec, v.isSome) ∧
    (radarValues rec).length = 8 ∧
    (radarValues rec).head? = (radarValsFilled rec).head? ∧
    (radarValues rec).getLast? = (radarValsFilled rec).head? := by
  have hlen7 : (radarVals rec).length = 7 := by
    simp [radarVals, radarFields]
  have hfill0 : (radarVals rec).all Option.isNone →
      radarValsFilled rec = List.replicate 7 (some 0) := by
    intro hall
    unfold radarValsFilled
    rw [if_pos hall, show (fun _ : Option ℚ => some (0:ℚ)) = Function.const (Option ℚ) (some (0:ℚ)) from rfl,
      List.map_const, hlen7]
  have hfillMean : ∀ m, meanIgnoreNan (radarVals rec) = some m →
      ¬ (radarVals rec).all Option.isNone →
      radarValsFilled rec = (radarVals rec).map (fun v => some (v.getD m)) := by
    intro m hm hall
    unfold radarValsFilled
    rw [if_neg hall, hm]
  have hsome : ∀ v ∈ radarValsFilled rec, v.isSome := by
    intro v hv
    by_cases hall : (radarVals rec).all Option.isNone
    · rw [hfill0 hall] at hv
      rcases List.eq_of_mem_replicate hv with rfl
      rfl
    · rcases exists_some_of_not_all_none hall with ⟨x, hx⟩
      rcases Option.isSome_iff_exists.mp (meanIgnoreNan_isSome hx) with ⟨m, hm⟩
      rw [hfillMean m hm hall] at hv
      rcases List.mem_map.mp hv with ⟨w, _, hw⟩
      rw [← hw]
      rfl
  have hne : radarValsFilled rec ≠ [] := by
    intro h0
    by_cases hall : (radarVals rec).all Option.isNone
    · rw [hfill0 hall] at h0
      simp at h0
    · rcases exists_some_of_not_all_none hall with ⟨x, hx⟩
      rcases Option.isSome_iff_exists.mp (meanIgnoreNan_isSome hx) with ⟨m, hm⟩
      rw [hfillMean m hm hall] at h0
      rcases List.map_eq_nil_iff.mp h0 with h1
      rw [h1] at hlen7
      simp at hlen7
  rcases List.exists_cons_of_ne_nil hne with ⟨a, t, hat⟩
  have hvalues : radarValues rec = (a :: t) ++ [a] := by
    unfold radarValues
    rw [hat]
    rfl
  have hlenFilled : (radarValsFilled rec).length = 7 := by
    by_cases hall : (radarVals rec).all Option.isNone
    · rw [hfill0 hall]; rfl
    · rcases exists_some_of_not_all_none hall with ⟨x, hx⟩
      rcases Option.isSome_iff_exists.mp (meanIgnoreNan_isSome hx) with ⟨m, hm⟩
      rw [hfillMean m hm hall, List.length_map, hlen7]
  refine ⟨hfill0, hfillMean, hsome, ?_, ?_, ?_⟩
  · rw [hvalues, List.length_append, ← hat, hlenFilled]
    rfl
  · rw [hvalues, hat]
    rfl
  · rw [hvalues, hat, List.getLast?_concat]
    rfl

/-- Witness for the radar theorem: a record with only the vividness axis
answered (value 5) gets every missing axis filled with the mean 5, and the
empty record's plotted polygon has eight points and closes on the zero
fill. -/
theorem radar_polygon_closed_witness :
    radarValsFilled ([("degreequest_vividness", PyVal.num 5)] : Record)
      = List.replicate 7 (some 5) ∧
    (radarValues ([] : Record)).length = 8 ∧
    (radarValues ([] : Record)).getLast? = some (some 0) := by
  have hvals : radarVals ([("degreequest_vividness", PyVal.num 5)] : Record)
      = [some 5, none, none, none, none, none, none] := by
    simp +decide [radarVals, radarFields, lookupRec, pyToFloat]
  have hm : meanIgnoreNan (radarVals ([("degreequest_vividness", PyVal.num 5)] : Record))
      = some 5 := by
    rw [hvals]
    simp [meanIgnoreNan]
  have hall : ¬ (radarVals ([("degreequest_vividness", PyVal.num 5)] : Record)).all
      Option.isNone := by
    rw [hvals]
    simp
  refine ⟨?_, (radar_polygon_closed ([] : Record)).2.2.2.1, ?_⟩
  · rw [(radar_polygon_closed _).2.1 5 hm hall, hvals]
    rfl
  · have h0 : (radarVals ([] : Record)).all Option.isNone := by
      simp +decide [radarVals, radarFields, lookupRec, pyToFloat]
    rw [(radar_polygon_closed ([] : Record)).2.2.2.2.2,
      (radar_polygon_closed ([] : Record)).1 h0]
    rfl

/-- Clipping to `[0,1]` lands in `[0,1]`. -/
lemma clip01_mem (z : ℚ) : 0 ≤ clip01 z ∧ clip01 z ≤ 1 :=
  ⟨le_max_left _ _, max_le (by norm_num) (min_le_left _ _)⟩

/-- Clipping is the identity on `[0,1]`. -/
lemma clip01_eq_self {z : ℚ} (h0 : 0 ≤ z) (h1 : z ≤ 1) : clip01 z = z := by
  unfold clip01
  rw [min_eq_right h1, max_eq_right h0]

/-- The 1-6 normalizer only produces values in `[0,1]`. -/
lemma norm16_mem {y : PyVal} {q : ℚ} (h : norm16 y = some q) : 0 ≤ q ∧ q ≤ 1 := by
  unfold norm16 at h
  rcases Option.map_eq_some'.mp h with ⟨v, _, hq⟩
  rw [← hq]
  exact clip01_mem _

/-- The NaN-ignoring mean of values in `[0,1]` lies in `[0,1]`. -/
lemma meanIgnoreNan_mem_unit {l : List (Option ℚ)}
    (hb : ∀ x : ℚ, some x ∈ l → 0 ≤ x ∧ x ≤ 1) {m : ℚ}
    (hm : meanIgnoreNan l = some m) : 0 ≤ m ∧ m ≤ 1 := by
  unfold meanIgnoreNan at hm
  by_cases he : (l.filterMap id).isEmpty
  · rw [if_pos he] at hm
    exact absurd hm (by simp)
  · rw [if_neg he] at hm
    have hmem : ∀ x ∈ l.filterMap id, 0 ≤ x ∧ x ≤ 1 := by
      intro x hx
      rcases List.mem_filterMap.mp hx with ⟨u, hu, hux⟩
      rcases u with _ | y
      · simp at hux
      · have hyx : y = x := by simpa using hux
        exact hyx ▸ hb y hu
    have hlen : 0 < (l.filterMap id).length := by
      refine List.length_pos.mpr (fun h0 => he ?_)
      rw [h0]
      rfl
    have hsum0 : 0 ≤ (l.filterMap id).sum :=
      List.sum_nonneg (fun x hx => (hmem x hx).1)
    have hsum1 : (l.filterMap id).sum ≤ ((l.filterMap id).length : ℚ) := by
      have := List.sum_le_card_nsmul (l.filterMap id) 1 (fun x hx => (hmem x hx).2)
      simpa [nsmul_eq_mul] using this
    have hlenQ : (0 : ℚ) < ((l.filterMap id).length : ℚ) := by exact_mod_cast hlen
    rcases Option.some_inj.mp hm with rfl
    constructor
    · exact div_nonneg hsum0 (le_of_lt hlenQ)
    · rw [div_le_one hlenQ]
      exact hsum1

/-- Every present entry of a dimension's normalized value list lies in
`[0,1]`. -/
lemma dimVals_mem_unit (rec : Record) (cfg : DimCfg) :
    ∀ x : ℚ, some x ∈ dimVals rec cfg → 0 ≤ x ∧ x ≤ 1 := by
  intro x hx
  rcases List.mem_map.mp hx with ⟨k, _, hk⟩
  by_cases hinv : k ∈ cfg.invertKeys
  · rw [if_pos hinv] at hk
    rcases h16 : norm16 (recGet rec k) with _ | q
    · rw [h16] at hk
      simp at hk
    · rw [h16] at hk
      simp only [Option.map_some'] at hk
      rcases norm16_mem h16 with ⟨hq0, hq1⟩
      have hxq : x = 1 - q := (Option.some_inj.mp hk).symm
      constructor
      · rw [hxq]; linarith
      · rw [hxq]; linarith
  · rw [if_neg hinv] at hk
    exact norm16_mem hk

/-- A list of only-missing values has a missing NaN-ignoring mean. -/
lemma meanIgnoreNan_all_none {l : List (Option ℚ)}
    (h : ∀ v ∈ l, v = none) : meanIgnoreNan l = none := by
  have : l.filterMap id = [] := by
    rw [List.filterMap_eq_nil_iff]
    intro v hv
    rw [h v hv]
    rfl
  simp [meanIgnoreNan, this]

/-- C5: the dimension score is `clip(base + 0.8·boost·base·(1−base), 0, 1)`;
a zero boost — in particular when every weight field is missing, so the
weight average defaults to the neutral 0.5 — returns the base exactly; and
a base of 0.5 with the maximal boost 0.5 yields exactly 0.6. -/
theorem dimension_score_amplification (rec : Record) (cfg : DimCfg) (base : ℚ)
    (hbase : dimBase rec cfg = some base) :
    compute_dimension_score rec cfg (4/5)
      = some (clip01 (base + 4/5 * weightBoost (cfg.weightKeys.map (recGet rec)) cfg.weightMode
          * base * (1 - base))) ∧
    (weightBoost (cfg.weightKeys.map (recGet rec)) cfg.weightMode = 0 →
      compute_dimension_score rec cfg (4/5) = some base) ∧
    ((∀ k ∈ cfg.weightKeys, lookupRec rec k = none) →
      weightBoost (cfg.weightKeys.map (recGet rec)) cfg.weightMode = 0) ∧
    (base = 1/2 → weightBoost (cfg.weightKeys.map (recGet rec)) cfg.weightMode = 1/2 →
      compute_dimension_score rec cfg (4/5) = some (3/5)) := by
  have hform : compute_dimension_score rec cfg (4/5)
      = some (clip01 (base + 4/5 * weightBoost (cfg.weightKeys.map (recGet rec)) cfg.weightMode
          * base * (1 - base))) := by
    unfold compute_dimension_score
    rw [hbase]
  have hbb : 0 ≤ base ∧ base ≤ 1 :=
    meanIgnoreNan_mem_unit (dimVals_mem_unit rec cfg) hbase
  refine ⟨hform, ?_, ?_, ?_⟩
  · intro hb0
    rw [hform, hb0]
    rw [show base + 4/5 * 0 * base * (1 - base) = base by ring]
    rw [clip01_eq_self hbb.1 hbb.2]
  · intro hmiss
    unfold weightBoost
    have hnone : ∀ v ∈ (cfg.weightKeys.map (recGet rec)).map norm16, v = none := by
      intro v hv
      rcases List.mem_map.mp hv with ⟨u, hu, huv⟩
      rcases List.mem_map.mp hu with ⟨k, hk, hku⟩
      rw [← huv, ← hku]
      unfold recGet
      rw [hmiss k hk]
      rfl
    rw [meanIgnoreNan_all_none hnone]
    rcases cfg.weightMode with _ | _ <;> norm_num [clipQ]
  · intro hb hw
    rw [hform, hb, hw]
    norm_num [clip01]

/-- Witness for the dimension-score theorem: a record answering the single
frequency field with 3.5 (base 0.5) and the single weight field with 6
(maximal boost 0.5) scores exactly 0.6, and the same record without the
weight field (all weight fields missing, boost 0) scores exactly the base
0.5. -/
theorem dimension_score_amplification_witness :
    dimBase [("f", PyVal.num (7/2)), ("w", PyVal.num 6)]
      { freqKeys := ["f"], invertKeys := [], weightKeys := ["w"],
        weightMode := WMode.standard } = some (1/2) ∧
    compute_dimension_score [("f", PyVal.num (7/2)), ("w", PyVal.num 6)]
      { freqKeys := ["f"], invertKeys := [], weightKeys := ["w"],
        weightMode := WMode.standard } (4/5) = some (3/5) ∧
    compute_dimension_score [("f", PyVal.num (7/2))]
      { freqKeys := ["f"], invertKeys := [], weightKeys := ["w"],
        weightMode := WMode.standard } (4/5) = some (1/2) := by
  have hbA : dimBase [("f", PyVal.num (7/2)), ("w", PyVal.num 6)]
      { freqKeys := ["f"], invertKeys := [], weightKeys := ["w"],
        weightMode := WMode.standard } = some (1/2) := by
    simp +decide [dimBase, dimVals, recGet, lookupRec, norm16, pyToFloat, meanIgnoreNan, clip01]
    norm_num
  have hbB : dimBase [("f", PyVal.num (7/2))]
      { freqKeys := ["f"], invertKeys := [], weightKeys := ["w"],
        weightMode := WMode.standard } = some (1/2) := by
    simp +decide [dimBase, dimVals, recGet, lookupRec, norm16, pyToFloat, meanIgnoreNan, clip01]
    norm_num
  have hw : weightBoost
      ((["w"] : List String).map (recGet [("f", PyVal.num (7/2)), ("w", PyVal.num 6)]))
      WMode.standard = 1/2 := by
    simp +decide [weightBoost, recGet, lookupRec, norm16, pyToFloat, meanIgnoreNan, clip01, clipQ]
    norm_num
  have hmiss : ∀ k ∈ (["w"] : List String),
      lookupRec [("f", PyVal.num (7/2))] k = none := by
    intro k hk
    rcases List.mem_singleton.mp hk with rfl
    rfl
  refine ⟨hbA, ?_, ?_⟩
  · exact (dimension_score_amplification _ _ _ hbA).2.2.2 rfl hw
  · exact (dimension_score_amplification _ _ _ hbB).2.1
      ((dimension_score_amplification _ _ _ hbB).2.2.1 hmiss)

/-- C3: the displayed profile match percentages are the normalized
inverse-distance similarities scaled to percent, so across the twelve
profiles they always sum to 100; and when every profile distance is
infinite each profile receives the uniform share 100/12. -/
theorem likelihood_percentages_sum_100 (ds : List (Option ℝ))
    (hlen : ds.length = 12)
    (hnn : ∀ x : ℝ, some x ∈ ds → 0 ≤ x) :
    (likPct ds).sum = 100 ∧
    (ds.all Option.isNone → likPct ds = List.replicate 12 (100/12)) := by
  by_cases hall : ds.all Option.isNone
  · have huni : likPct ds = List.replicate 12 (100/12) := by
      unfold likPct simsOfDists
      rw [if_pos hall, List.map_map]
      have hcomp : ((fun x => x * 100) ∘ fun _ : Option ℝ => 1 / (ds.length : ℝ))
          = Function.const (Option ℝ) ((100 : ℝ)/12) := by
        funext d
        simp only [Function.comp_apply, Function.const]
        rw [hlen]
        norm_num
      rw [hcomp, List.map_const, hlen]
    refine ⟨?_, fun _ => huni⟩
    rw [huni, List.sum_replicate, nsmul_eq_mul]
    norm_num
  · rcases exists_some_of_not_all_none hall with ⟨x, hx⟩
    have hx0 : 0 ≤ x := hnn x hx
    set f : Option ℝ → ℝ := fun d => match d with | some y => 1 / (1 + y) | none => 0 with hf
    have hfnn : ∀ d ∈ ds, 0 ≤ f d := by
      intro d hd
      rcases d with _ | y
      · simp [hf]
      · have : 0 ≤ y := hnn y hd
        simp only [hf]
        positivity
    have hsnn : ∀ z ∈ ds.map f, 0 ≤ z := by
      intro z hz
      rcases List.mem_map.mp hz with ⟨d, hd, hdz⟩
      exact hdz ▸ hfnn d hd
    have hfx : 0 < f (some x) := by
      simp only [hf]
      positivity
    have htot : 0 < (ds.map f).sum :=
      lt_of_lt_of_le hfx (List.single_le_sum hsnn _ (List.mem_map_of_mem f hx))
    have hne0 : (ds.map f).sum ≠ 0 := ne_of_gt htot
    have hsims : simsOfDists ds = (ds.map f).map (fun z => z / (ds.map f).sum) := by
      unfold simsOfDists
      rw [if_neg hall, if_neg (not_le.mpr htot)]
    have hsum : (likPct ds).sum = 100 := by
      unfold likPct
      rw [hsims, List.map_map, List.map_map]
      rw [show ((fun z => z * 100) ∘ fun z => z / (ds.map f).sum) ∘ f
          = fun d => f d * (100 / (ds.map f).sum) by funext d; simp; ring]
      rw [List.sum_map_mul_right]
      field_simp
    exact ⟨hsum, fun h => absurd h hall⟩

/-- Witness for the likelihood theorem: with all twelve distances infinite
the percentages are uniform and sum to 100. -/
theorem likelihood_percentages_sum_100_witness :
    (List.replicate 12 (none : Option ℝ)).length = 12 ∧
    (likPct (List.replicate 12 none)).sum = 100 ∧
    likPct (List.replicate 12 none) = List.replicate 12 (100/12) := by
  have hlen : (List.replicate 12 (none : Option ℝ)).length = 12 := by simp
  have hnn : ∀ x : ℝ, some x ∈ List.replicate 12 (none : Option ℝ) → 0 ≤ x := by
    intro x hx
    exact absurd (List.eq_of_mem_replicate hx) (by simp)
  have h := likelihood_percentages_sum_100 (List.replicate 12 none) hlen hnn
  refine ⟨hlen, h.1, h.2 ?_⟩
  simp [List.all_eq_true]

/-- The uncapped penalty at a zero hit ratio, `(0.2/1e-6) ** 0.8 =
200000 ** 0.8`, exceeds the cap of 3. -/
lemma three_le_penalty_base : (3 : ℝ) ≤ (200000 : ℝ) ^ GAMMA := by
  unfold GAMMA
  have h1 : (200000 : ℝ) ^ ((4 : ℝ)/5) = (((200000 : ℝ) ^ (4 : ℕ)) : ℝ) ^ ((1 : ℝ)/5) := by
    rw [show (4 : ℝ)/5 = (4 : ℝ) * (1/5) by norm_num,
      Real.rpow_mul (by norm_num : (0 : ℝ) ≤ 200000)]
    norm_num [Real.rpow_natCast]
  have h2 : (3 : ℝ) = (((3 : ℝ) ^ (5 : ℕ)) : ℝ) ^ ((1 : ℝ)/5) := by
    rw [show ((3 : ℝ) ^ (5 : ℕ) : ℝ) = (3 : ℝ) ^ ((5 : ℕ) : ℝ) by rw [Real.rpow_natCast],
      ← Real.rpow_mul (by norm_num : (0 : ℝ) ≤ 3)]
    norm_num
  rw [h1, h2]
  apply Real.rpow_le_rpow (by positivity) (by norm_num) (by norm_num)

/-- C2: in the penalty step shared by `assign_profile_from_record` and
`compute_profile_distances`, with `eligible > 0` and `r = hits/eligible`:
below the 0.20 threshold the raw distance is multiplied by
`min((0.20 / max(r, 1e-6)) ** 0.8, 3.0)`; at `r = 0` that multiplier is
exactly the cap 3.0; and at `r ≥ 0.20` the distance is unchanged. -/
theorem and_penalty_multiplier (d : ℝ) (hits eligible : ℕ) (he : 0 < eligible) :
    (((hits : ℚ) / (eligible : ℚ)) < 1/5 →
      andPenalty (some d) hits eligible
        = some (d * min ((((1 : ℝ)/5)
            / max ((((hits : ℚ) / (eligible : ℚ)) : ℝ)) ((1 : ℝ)/1000000)) ^ GAMMA) 3)) ∧
    (hits = 0 → andPenalty (some d) hits eligible = some (d * 3)) ∧
    (1/5 ≤ ((hits : ℚ) / (eligible : ℚ)) → andPenalty (some d) hits eligible = some d) := by
  have hk : ((kRatio : ℚ) : ℝ) = (1 : ℝ)/5 := by norm_num [kRatio]
  refine ⟨?_, ?_, ?_⟩
  · intro hr
    unfold andPenalty
    rw [if_pos he, if_pos (show ((hits : ℚ) / (eligible : ℚ)) < kRatio from hr)]
    simp only [Option.map_some']
    rw [hk, CAP]
    norm_cast
  · intro h0
    subst h0
    unfold andPenalty
    rw [if_pos he, if_pos (show ((0 : ℕ) : ℚ) / (eligible : ℚ) < kRatio by
      norm_num [kRatio])]
    simp only [Option.map_some']
    have hr0 : ((((0 : ℕ) : ℚ) / (eligible : ℚ) : ℚ) : ℝ) = 0 := by norm_num
    rw [hr0, max_eq_right (by norm_num : (0 : ℝ) ≤ 1/1000000), hk]
    rw [show ((1 : ℝ)/5) / (1/1000000) = 200000 by norm_num, CAP,
      min_eq_right three_le_penalty_base]
  · intro hr
    unfold andPenalty
    rw [if_pos he, if_neg (not_lt.mpr (show kRatio ≤ (hits : ℚ) / (eligible : ℚ) from hr))]

/-- Witness for the penalty theorem: five eligible features with zero hits
triple the distance; five eligible features with one hit (ratio exactly
0.20) leave it unchanged. -/
theorem and_penalty_multiplier_witness :
    (0 : ℕ) < 5 ∧
    andPenalty (some 1) 0 5 = some 3 ∧
    andPenalty (some 1) 1 5 = some 1 := by
  have h1 := (and_penalty_multiplier 1 0 5 (by norm_num)).2.1 rfl
  have h2 := (and_penalty_multiplier 1 1 5 (by norm_num)).2.2 (by norm_num)
  refine ⟨by norm_num, ?_, h2⟩
  rw [h1]
  norm_num

/-- The source duplicates the gating of `_conditions_met` verbatim inside
`_eligible_for_hit`; the two embeddings agree definitionally. -/
lemma eligibleForHit_eq_conditionsMet (r : Record) (f : FeatCfg) :
    eligibleForHit r f = conditionsMet r f := rfl

/-- A computed feature value is only present when the feature is a var
feature whose gating conditions hold. -/
lemma featureValue_some {r : Record} {f : FeatCfg} {v : ℚ}
    (h : featureValue r f = some v) : f.isVar = true ∧ conditionsMet r f = true := by
  unfold featureValue at h
  by_cases h1 : f.isVar = true
  · by_cases h2 : conditionsMet r f = true
    · exact ⟨h1, h2⟩
    · rw [if_neg (by simp [h1]), if_pos (by simp [h2])] at h
      exact absurd h (by simp)
  · rw [if_pos (by simp [h1])] at h
    exact absurd h (by simp)

/-- A feature whose computed value equals its (nonnegative) target is
eligible and scores a hit under either hit operator. -/
lemma featureHit_of_exact {r : Record} {f : FeatCfg}
    (ht : 0 ≤ f.target) (hv : featureValue r f = some f.target) :
    featureHit r f (featureValue r f) = some true := by
  have helig : eligibleForHit r f = true := by
    rw [eligibleForHit_eq_conditionsMet]
    exact (featureValue_some hv).2
  unfold featureHit
  rw [if_neg (by simp [helig]), hv]
  rcases f.hitOp with _ | _
  all_goals simp only
  · rw [show (decide (f.target ≥ f.target * (19/20)) = true) from decide_eq_true (by nlinarith)]
  · rw [show (decide (f.target ≤ f.target / (19/20)) = true) from decide_eq_true (by
      rw [le_div_iff₀ (by norm_num : (0 : ℚ) < 19/20)]
      nlinarith)]

/-- When every feature of a list hits, the accumulated counters equal the
list length on both components. -/
lemma hitsEligible_all_hits {r : Record} {feats : List FeatCfg}
    (h : ∀ f ∈ feats, featureHit r f (featureValue r f) = some true) :
    hitsEligible r feats = (feats.length, feats.length) := by
  unfold hitsEligible
  suffices haux : ∀ acc : ℕ × ℕ,
      feats.foldl
        (fun acc f =>
          match featureHit r f (featureValue r f) with
          | none => acc
          | some b => (acc.1 + (if b then 1 else 0), acc.2 + 1)) acc
        = (acc.1 + feats.length, acc.2 + feats.length) by
    rw [haux (0, 0)]
    simp
  induction feats with
  | nil => intro acc; simp
  | cons f t ih =>
    intro acc
    have hf := h f (List.mem_cons_self f t)
    simp only [List.foldl_cons, hf, if_true, eq_self_iff_true]
    rw [ih (fun g hg => h g (List.mem_cons_of_mem f hg)) (acc.1 + 1, acc.2 + 1)]
    simp only [List.length_cons]
    rw [Prod.mk.injEq]
    omega

/-- Any finite weighted distance is nonnegative: it is a real square
root. -/
lemma weightedNanawareDistance_nonneg {v : List (Option ℚ)} {t w : List ℚ} {x : ℝ}
    (h : weightedNanawareDistance v t w = some x) : 0 ≤ x := by
  unfold weightedNanawareDistance at h
  set triples := (v.zip (t.zip w)).filterMap
    (fun p => match p.1 with
      | none => none
      | some a => some ((a : ℝ), ((p.2.1 : ℝ), (p.2.2 : ℝ)))) with htr
  by_cases he : triples.isEmpty
  · rw [if_pos he] at h
    exact absurd h (by simp)
  · rw [if_neg he] at h
    rw [← Option.some_inj.mp h]
    exact Real.sqrt_nonneg _

/-- Exact-match feature lists survive the NaN filter intact: every feature
contributes the triple (target, target, weight). -/
lemma filterMap_exact {r : Record} :
    ∀ (feats : List FeatCfg), (∀ f ∈ feats, featureValue r f = some f.target) →
    (feats.filterMap (fun x =>
        match featureValue r x with
        | none => none
        | some a => some ((a : ℝ), ((x.target : ℝ), (x.weight : ℝ)))))
      = feats.map (fun f => ((f.target : ℝ), ((f.target : ℝ), (f.weight : ℝ)))) := by
  intro feats
  induction feats with
  | nil => intro _; rfl
  | cons f0 t ih =>
    intro hv
    rw [List.filterMap_cons, List.map_cons]
    rw [show (match featureValue r f0 with
        | none => none
        | some a => some ((a : ℝ), ((f0.target : ℝ), (f0.weight : ℝ))))
        = some ((f0.target : ℝ), ((f0.target : ℝ), (f0.weight : ℝ))) by
      rw [hv f0 (List.mem_cons_self f0 t)]]
    rw [ih (fun g hg => hv g (List.mem_cons_of_mem f0 hg))]

/-- When every feature value equals its target, the weighted distance of a
nonempty feature list is exactly zero. -/
lemma weightedNanawareDistance_exact {r : Record} {feats : List FeatCfg}
    (hne : feats ≠ [])
    (hv : ∀ f ∈ feats, featureValue r f = some f.target) :
    weightedNanawareDistance (feats.map (featureValue r))
      (feats.map FeatCfg.target) (feats.map FeatCfg.weight) = some 0 := by
  unfold weightedNanawareDistance
  rw [List.zip_map', List.zip_map', List.filterMap_map]
  show (let triples := feats.filterMap (fun x =>
      match featureValue r x with
      | none => none
      | some a => some ((a : ℝ), ((x.target : ℝ), (x.weight : ℝ))))
    if triples.isEmpty = true then none
    else
      let d2 := (List.map (fun t => t.2.2 * (t.1 - t.2.1) ^ 2) triples).sum
      let W := (List.map (fun t => t.2.2) triples).sum
      some (Real.sqrt (d2 / (max W (1 / 1000000000))))) = some 0
  rw [filterMap_exact feats hv]
  have hne3 : (feats.map
      (fun f => ((f.target : ℝ), ((f.target : ℝ), (f.weight : ℝ))))).isEmpty = false := by
    simp [List.isEmpty_iff, List.map_eq_nil_iff, hne]
  have hsum0 : ((feats.map
      (fun f => ((f.target : ℝ), ((f.target : ℝ), (f.weight : ℝ))))).map
        (fun t => t.2.2 * (t.1 - t.2.1) ^ 2)).sum = 0 := by
    apply List.sum_eq_zero
    intro z hz
    rcases List.mem_map.mp hz with ⟨p, hp, hpz⟩
    rcases List.mem_map.mp hp with ⟨f, _, hfp⟩
    rw [← hpz, ← hfp]
    ring
  simp only [hne3, Bool.false_eq_true, if_false, hsum0, zero_div, Real.sqrt_zero]

/-- The penalty step maps a zero distance to zero. -/
lemma andPenalty_zero (h e : ℕ) : andPenalty (some 0) h e = some 0 := by
  unfold andPenalty
  split_ifs <;> simp

/-- The penalty step maps an infinite distance to infinity. -/
lemma andPenalty_none (h e : ℕ) : andPenalty none h e = none := by
  unfold andPenalty
  split_ifs <;> simp

/-- The penalty step preserves nonnegativity. -/
lemma andPenalty_nonneg {x y : ℝ} {h e : ℕ} (hx : 0 ≤ x)
    (hp : andPenalty (some x) h e = some y) : 0 ≤ y := by
  unfold andPenalty at hp
  by_cases h1 : 0 < e
  · rw [if_pos h1] at hp
    by_cases h2 : ((h : ℚ)) / ((e : ℚ)) < kRatio
    · rw [if_pos h2] at hp
      simp only [Option.map_some'] at hp
      rw [← Option.some_inj.mp hp]
      have hbase : (0 : ℝ) ≤ (kRatio : ℝ)
          / max ((((h : ℚ) / (e : ℚ)) : ℚ) : ℝ) (1 / 1000000) := by
        apply div_nonneg (by norm_num [kRatio])
        exact le_trans (by norm_num) (le_max_right _ _)
      have hmin : (0 : ℝ) ≤ min (((kRatio : ℝ)
          / max ((((h : ℚ) / (e : ℚ)) : ℚ) : ℝ) (1 / 1000000)) ^ GAMMA) CAP :=
        le_min (Real.rpow_nonneg hbase _) (by norm_num [CAP])
      exact mul_nonneg hx hmin
    · rw [if_neg h2] at hp
      exact hx.trans_eq (Option.some_inj.mp hp)
  · rw [if_neg h1] at hp
    exact hx.trans_eq (Option.some_inj.mp hp)

/-- C1: `assign_profile_from_record` is a pure function of the record and
the registry (no hidden randomness), so repeated calls agree; and for any
record in which every feature of a profile has a computed value exactly
equal to its (nonnegative) target, that profile's penalized weighted
distance is the minimum possible — zero, while every finite profile
distance is nonnegative — and its hit ratio is exactly 1. -/
theorem assign_profile_deterministic_exact_target
    (registry : List (String × ProfileCfg)) (rec : Record) (feats : List FeatCfg)
    (hne : feats ≠ [])
    (htgt : ∀ f ∈ feats, 0 ≤ f.target)
    (hval : ∀ f ∈ feats, featureValue rec f = some f.target) :
    assign_profile_from_record registry rec = assign_profile_from_record registry rec ∧
    profileDistance rec feats = some 0 ∧
    (∀ (rec2 : Record) (feats2 : List FeatCfg) (d : ℝ),
      profileDistance rec2 feats2 = some d → 0 ≤ d) ∧
    profileHitFraction rec feats = 1 := by
  refine ⟨rfl, ?_, ?_, ?_⟩
  · show andPenalty
        (weightedNanawareDistance (feats.map (featureValue rec))
          (feats.map FeatCfg.target) (feats.map FeatCfg.weight))
        (hitsEligible rec feats).1 (hitsEligible rec feats).2 = some 0
    rw [weightedNanawareDistance_exact hne hval, andPenalty_zero]
  · intro rec2 feats2 d hd
    have hd2 : andPenalty
        (weightedNanawareDistance (feats2.map (featureValue rec2))
          (feats2.map FeatCfg.target) (feats2.map FeatCfg.weight))
        (hitsEligible rec2 feats2).1 (hitsEligible rec2 feats2).2 = some d := hd
    rcases hw : weightedNanawareDistance (feats2.map (featureValue rec2))
        (feats2.map FeatCfg.target) (feats2.map FeatCfg.weight) with _ | x
    · rw [hw, andPenalty_none] at hd2
      exact absurd hd2 (by simp)
    · rw [hw] at hd2
      exact andPenalty_nonneg (weightedNanawareDistance_nonneg hw) hd2
  · have hall : ∀ f ∈ feats, featureHit rec f (featureValue rec f) = some true :=
      fun f hf => featureHit_of_exact (htgt f hf) (hval f hf)
    have hn : 0 < feats.length := List.length_pos.mpr hne
    show (if 0 < (hitsEligible rec feats).2
        then ((hitsEligible rec feats).1 : ℚ) / ((hitsEligible rec feats).2 : ℚ) else 0) = 1
    rw [hitsEligible_all_hits hall]
    rw [if_pos hn]
    exact div_self (by exact_mod_cast Nat.pos_iff_ne_zero.mp hn)

/-- Witness for the exact-target theorem: a single-feature profile whose
raw value equals its target of 0.5 gets distance zero and hit ratio 1. -/
theorem assign_profile_exact_target_witness :
    featureValue [("k", PyVal.num (1/2))] { key := ["k"], target := 1/2 }
      = some ((1 : ℚ)/2) ∧
    profileDistance [("k", PyVal.num (1/2))] [{ key := ["k"], target := 1/2 }]
      = some 0 ∧
    profileHitFraction [("k", PyVal.num (1/2))] [{ key := ["k"], target := 1/2 }] = 1 := by
  have hfv : featureValue [("k", PyVal.num (1/2))] { key := ["k"], target := 1/2 }
      = some ((1 : ℚ)/2) := by
    simp +decide [featureValue, conditionsMet, shortcircuitOrValue, getFirst, lookupRec,
      pyToFloat, clip01]
    norm_num
  have h := assign_profile_deterministic_exact_target []
    [("k", PyVal.num (1/2))] [{ key := ["k"], target := 1/2 }]
    (by simp)
    (by intro f hf; rcases List.mem_singleton.mp hf with rfl; norm_num)
    (by intro f hf; rcases List.mem_singleton.mp hf with rfl; exact hfv)
  exact ⟨hfv, h.2.1, h.2.2.2⟩
